import Mathlib

/-!
Verification of the Drawpile collaborative drawing program against its
natural-language specification.  We shallowly embed the relevant parts of
the source (layer list model, layer list dock, message text writer, TCP
socket client constants, region fill) as executable Lean definitions and
prove or refute the specified properties.

Machine integers are modelled as Nat; bitwise operations use Nat bitwise
operators, with bounds hypotheses standing in for the C integer widths.
QString values are modelled as List Char.
-/

set_option maxHeartbeats 1000000
set_option linter.unusedVariables false

/-! ## Generic list helpers -/

/-- QVector.move(from, to): the element at index f is relocated so that it
ends up at index t, the elements in between shifting by one.  Qt implements
this as a rotate; it is equivalent to removing the element at f and
re-inserting it at t.  Out-of-range f (which Qt asserts against) leaves the
list unchanged. -/
def listMove {α : Type} (l : List α) (f t : Nat) : List α :=
  match l.get? f with
  | some x => List.insertIdx t x (l.eraseIdx f)
  | none => l

/-! ## Layer list model (src/libclient/canvas/layerlist.h / layerlist.cpp) -/

/-- LayerListItem from layerlist.h.  The opacity (float) and blend-mode
fields of the source are omitted: none of the embedded operations read
them except to pass them through unchanged, and the claims under
verification do not mention them.  Remaining fields follow the source. -/
structure LayerListItem where
  id : Nat
  title : List Char
  hidden : Bool
  censored : Bool
  fixed : Bool
  isolated : Bool
  group : Bool
  children : Nat
  relIndex : Nat
  left : Int
  right : Int
deriving DecidableEq, Repr

/-- LayerListItem.creatorId from layerlist.h line 87:
uint8_t((id &#38; 0xff00) &gt;&gt; 8). -/
def creatorId (id : Nat) : Nat := (id &&& 0xff00) >>> 8

/-- The flags constants rustpile::LayerAttributesMessage_FLAGS_CENSOR /
FIXED / ISOLATED.  Modelled from the spec: the generated rustpile header is
not part of the sources; the protocol assigns the censor, fixed and
isolated flags the three low bits of the attribute bitfield. -/
def LayerAttributesMessage_FLAGS_CENSOR : Nat := 1

/-- Modelled from the spec: see LayerAttributesMessage_FLAGS_CENSOR. -/
def LayerAttributesMessage_FLAGS_FIXED : Nat := 2

/-- Modelled from the spec: see LayerAttributesMessage_FLAGS_CENSOR. -/
def LayerAttributesMessage_FLAGS_ISOLATED : Nat := 4

/-- LayerListItem::attributeFlags from layerlist.cpp lines 384-390. -/
def attributeFlags (it : LayerListItem) : Nat :=
  (if it.censored then LayerAttributesMessage_FLAGS_CENSOR else 0) |||
  (if it.fixed then LayerAttributesMessage_FLAGS_FIXED else 0) |||
  (if it.isolated then LayerAttributesMessage_FLAGS_ISOLATED else 0)

/-- LayerListModel::handleMoveLayer from layerlist.cpp lines 97-138.
Indices are C ints, hence Int here.  The function never mutates m_items;
it only (possibly) emits one layer-order command, the payload of which is
returned here together with the unchanged item list.  The payload is built
as (id, 0) pairs in display order, the pair of the moved layer is
relocated with two QVector.move calls, and the flat vector is reversed
before being written into the command. -/
def handleMoveLayer (items : List LayerListItem) (oldIdx newIdx : Int) :
    List LayerListItem × Option (List Nat) :=
  let count : Int := items.length
  if count < 2 then (items, none)
  else
    let adjustedNewIdx : Int := if newIdx > oldIdx then newIdx - 1 else newIdx
    if oldIdx < 0 ∨ count ≤ oldIdx ∨ adjustedNewIdx < 0 ∨ count ≤ adjustedNewIdx then
      (items, none)
    else
      let o := oldIdx.toNat
      let a := adjustedNewIdx.toNat
      let layers := items.flatMap (fun li => [li.id, 0])
      let layers := listMove layers (2*o) (2*a)
      let layers := listMove layers (2*o+1) (2*a+1)
      (items, some layers.reverse)

/-- The layer-order payload that claim C1 describes: every current layer id
exactly once, each followed by a 0 entry, in reverse of the (new) display
order, with the moved layer relocated to its adjusted new position. -/
def claimedMovePayload (items : List LayerListItem) (oldIdx newIdx : Int) : List Nat :=
  let adjustedNewIdx : Int := if newIdx > oldIdx then newIdx - 1 else newIdx
  ((listMove items oldIdx.toNat adjustedNewIdx.toNat).reverse).flatMap
    (fun li => [li.id, 0])

/-- LayerListModel::getAvailableLayerId loop body, layerlist.cpp lines
345-349: for i in 0..255 return the first free id in the creator
namespace, 0 when every one is taken. -/
def getAvailableLayerId_go (takenIds : List Nat) (pre : Nat) (i : Nat) : Nat :=
  if _h : i < 256 then
    if takenIds.contains (pre ||| i) then getAvailableLayerId_go takenIds pre (i+1)
    else pre ||| i
  else 0
termination_by 256 - i

/-- LayerListModel::getAvailableLayerId from layerlist.cpp lines 334-352. -/
def getAvailableLayerId (items : List LayerListItem) (localUserId : Nat) : Nat :=
  let pre := localUserId <<< 8
  let takenIds := (items.filter (fun it => it.id &&& 0xff00 == pre)).map (fun it => it.id)
  getAvailableLayerId_go takenIds pre 0

/-! ## TCP socket client constants (src/libclient/dpclient/tcp_socket_client.h) -/

/-- DP_TCP_SOCKET_CLIENT_SCHEME from tcp_socket_client.h line 42. -/
def DP_TCP_SOCKET_CLIENT_SCHEME : String := "drawpile"

/-- DP_TCP_SOCKET_CLIENT_DEFAULT_PORT from tcp_socket_client.h line 43. -/
def DP_TCP_SOCKET_CLIENT_DEFAULT_PORT : String := "27750"

/-! ## Layer name allocation (layerlist.cpp lines 354-382) -/

/-- The trailing decimal run captured by the QRegularExpression
(backslash-d+ anchored at the end): the maximal suffix of ASCII digits. -/
def trailingDigits (s : List Char) : List Char :=
  (s.reverse.takeWhile Char.isDigit).reverse

/-- QString::trimmed: whitespace removed from both ends. -/
def trimmed (s : List Char) : List Char :=
  ((s.dropWhile Char.isWhitespace).reverse.dropWhile Char.isWhitespace).reverse

/-- Numeric value of a list of decimal digit characters (most significant
first), as accumulated left to right. -/
def digitsToInt (ds : List Char) : Nat :=
  ds.foldl (fun a c => a * 10 + (c.toNat - 48)) 0

/-- QString::toInt on a run of decimal digits: the value, or 0 when the
value overflows a C int (Qt returns 0 on overflow). -/
def qStringToInt (ds : List Char) : Nat :=
  let v := digitsToInt ds
  if v ≤ 2147483647 then v else 0

/-- Decimal representation of a Nat, digit characters most significant
first, no leading zeros (single digit 0 for zero). -/
def natRepr (n : Nat) : List Char :=
  if h : n < 10 then [Char.ofNat (48 + n)]
  else natRepr (n / 10) ++ [Char.ofNat (48 + n % 10)]
termination_by n
decreasing_by exact Nat.div_lt_self (by omega) (by omega)

/-- The suffix-stripping step of getAvailableLayerName, layerlist.cpp lines
361-367: when the basename ends in digits, cut them off and trim the rest;
otherwise the basename is kept as is. -/
def stripSuffixNumber (basename : List Char) : List Char :=
  let ds := trailingDigits basename
  if ds.isEmpty then basename
  else trimmed (basename.take (basename.length - ds.length))

/-- The suffix-maximum loop of getAvailableLayerName, layerlist.cpp lines
370-378: a title contributes when its trailing digit run is nonempty and
it starts with the (stripped) basename; qMax accumulates. -/
def suffixFold (basename : List Char) (items : List LayerListItem) (acc : Nat) :
    Nat :=
  items.foldl
    (fun acc l =>
      let ds := trailingDigits l.title
      if !ds.isEmpty && basename.isPrefixOf l.title then
        max acc (qStringToInt ds)
      else acc) acc

/-- LayerListModel::getAvailableLayerName from layerlist.cpp lines 354-382.
The result is rendered by QString("%2 %1"), i.e. basename, space,
number. -/
def getAvailableLayerName (items : List LayerListItem) (basename0 : List Char) :
    List Char :=
  let basename := stripSuffixNumber basename0
  let suffix := suffixFold basename items 0
  basename ++ ' ' :: natRepr (suffix + 1)

/-! ## Layer list dock (src/desktop/docks/layerlistdock.cpp) -/

/-- The item roles the dock reads from the layer list model.  The dock
source also references IsGroupRole (lines 298 and 343), a role that is
neither declared in the LayerListRoles enum of layerlist.h nor handled by
LayerListModel::data; it is modelled here so that its lookup can be given
the semantics the model actually provides (no data). -/
inductive LayerListRole where
  | TitleRole
  | IdRole
  | IsDefaultRole
  | IsLockedRole
  | IsFixedRole
  | IsGroupRole
deriving DecidableEq

/-- A QVariant as returned by LayerListModel::data: either a typed value
or the invalid variant. -/
inductive LayerVariant where
  | vNone
  | vBool (b : Bool)
  | vNat (n : Nat)
  | vStr (s : List Char)
deriving DecidableEq

/-- QVariant::toBool: an invalid variant converts to false. -/
def LayerVariant.toBool : LayerVariant → Bool
  | .vBool b => b
  | .vNat n => n != 0
  | _ => false

/-- QVariant::toInt / value of uint16_t: an invalid variant converts
to 0. -/
def LayerVariant.toNat : LayerVariant → Nat
  | .vNat n => n
  | _ => 0

/-- LayerListModel::data from layerlist.cpp lines 37-55, restricted to the
roles of LayerListRole.  The switch has cases for title, id, default,
locked and fixed; every other role, in particular IsGroupRole, falls
through to an invalid QVariant. -/
def LayerListModel_data (defaultLayer : Nat) (locked : Nat → Bool)
    (it : LayerListItem) : LayerListRole → LayerVariant
  | .TitleRole => .vStr it.title
  | .IdRole => .vNat it.id
  | .IsDefaultRole => .vBool (it.id == defaultLayer)
  | .IsLockedRole => .vBool (locked it.id)
  | .IsFixedRole => .vBool it.fixed
  | .IsGroupRole => .vNone

/-- A selection in the dock view: the sibling list the selected index
lives in (children of its parent, in display order) together with the
selected row; none when no index is selected.  index.sibling(row+1, 0) is
the next entry of the same sibling list. -/
def DockSelection : Type := Option (List LayerListItem × Nat)

/-- LayerList::canMergeCurrent from layerlistdock.cpp lines 337-346:
index valid, below sibling valid, below not a group (read through
IsGroupRole), below not locked (via the acl state). -/
def canMergeCurrent (defaultLayer : Nat) (locked : Nat → Bool)
    (sel : DockSelection) : Bool :=
  match sel with
  | none => false
  | some (sibs, row) =>
    match sibs.get? row, sibs.get? (row+1) with
    | some _, some below =>
      !(LayerListModel_data defaultLayer locked below .IsGroupRole).toBool &&
      !locked (LayerListModel_data defaultLayer locked below .IdRole).toNat
    | _, _ => false

/-- The drawing commands the dock emits.  The layer-attributes message
also carries an opacity (float) and blend-mode passthrough in the source;
they are omitted along with the corresponding LayerListItem fields. -/
inductive DrawMessage where
  | undoPoint (contextId : Nat)
  | layerDelete (contextId layerId mergeTo : Nat)
  | layerAttributes (contextId layerId sublayer flags : Nat)
deriving DecidableEq

/-- LayerList::mergeSelected from layerlistdock.cpp lines 363-381: bail
out when the selection or the below sibling is invalid, otherwise emit an
undo point and a layer delete whose merge target is the below sibling. -/
def mergeSelected (contextId defaultLayer : Nat) (locked : Nat → Bool)
    (sel : DockSelection) : Option (List DrawMessage) :=
  match sel with
  | none => none
  | some (sibs, row) =>
    match sibs.get? row, sibs.get? (row+1) with
    | some cur, some below =>
      some [.undoPoint contextId,
            .layerDelete contextId
              (LayerListModel_data defaultLayer locked cur .IdRole).toNat
              (LayerListModel_data defaultLayer locked below .IdRole).toNat]
    | _, _ => none

/-- DP_MSG_LAYER_ATTRIBUTES_FLAGS_CENSOR.  Modelled from the spec: the
dpmsg message header is not part of the sources; the censor flag is the
same protocol bit as rustpile::LayerAttributesMessage_FLAGS_CENSOR. -/
def DP_MSG_LAYER_ATTRIBUTES_FLAGS_CENSOR : Nat := 1

/-- ChangeFlags of utils/changeflags.h.  Modelled from the spec: the
header is not under the sources; per spec section 4.2 an attribute change
is a read-modify-write of the bitfield, accumulating bits to set and bits
to clear and applying them to the current value, leaving all other bits
unchanged (the value is a uint8_t, so the complement is within 8 bits). -/
structure ChangeFlags where
  setMask : Nat := 0
  clearMask : Nat := 0

/-- Modelled from the spec: see ChangeFlags. -/
def ChangeFlags.set (cf : ChangeFlags) (flag : Nat) (enable : Bool) : ChangeFlags :=
  if enable then { cf with setMask := cf.setMask ||| flag }
  else { cf with clearMask := cf.clearMask ||| flag }

/-- Modelled from the spec: see ChangeFlags. -/
def ChangeFlags.update (cf : ChangeFlags) (flags : Nat) : Nat :=
  (flags ||| cf.setMask) &&& (255 ^^^ cf.clearMask)

/-- LayerList::censorSelected from layerlistdock.cpp lines 237-249: when
an index is selected, emit a layer-attributes command whose flags byte is
the current attributeFlags with only the censor bit edited. -/
def censorSelected (contextId defaultLayer : Nat) (locked : Nat → Bool)
    (censor : Bool) (sel : DockSelection) : Option DrawMessage :=
  match sel with
  | none => none
  | some (sibs, row) =>
    match sibs.get? row with
    | none => none
    | some layer =>
      let flags := (ChangeFlags.set {} DP_MSG_LAYER_ATTRIBUTES_FLAGS_CENSOR censor).update
        (attributeFlags layer)
      some (.layerAttributes contextId layer.id 0 flags)

/-! ## Message text writer (src/libmsg/dpmsg/text_writer.c) -/

/-- BASE64_LINE_WIDTH from text_writer.c line 33. -/
def BASE64_LINE_WIDTH : Nat := 70

/-- DP_MSG_UNDO_POINT message type tag.  Modelled from the spec: the
dpmsg message header is not under the sources; only the identity of this
tag matters, never its numeric value. -/
def DP_MSG_UNDO_POINT : Nat := 49

/-- The opening curly brace character. -/
def lbrace : Char := Char.ofNat 123

/-- The closing curly brace character. -/
def rbrace : Char := Char.ofNat 125

/-- The text writer state: the main output and the multiline buffer
(multiline_output with its multiline_size). -/
structure DP_TextWriter where
  output : List Char
  multiline : List Char
deriving DecidableEq

/-- DP_text_writer_finish_message from text_writer.c lines 129-145: with a
pending multiline buffer, append a space and opening brace, the buffer and
a closing brace line, then clear the buffer; otherwise just end the line.
One extra newline is appended exactly when the message is an undo point. -/
def DP_text_writer_finish_message (w : DP_TextWriter) (msgType : Nat) :
    DP_TextWriter :=
  let add_newline := msgType = DP_MSG_UNDO_POINT
  if 0 < w.multiline.length then
    { output := w.output ++ [' ', lbrace] ++ w.multiline ++
        (if add_newline then ['\n', rbrace, '\n', '\n'] else ['\n', rbrace, '\n']),
      multiline := [] }
  else
    { output := w.output ++ (if add_newline then ['\n', '\n'] else ['\n']),
      multiline := w.multiline }

/-- The finish-message behaviour claimed by the spec: every command is
terminated by a blank line (the line end plus an empty line), undo points
getting one further newline.  Used to exhibit the divergence from the
source behaviour. -/
def finish_message_claimed (w : DP_TextWriter) (msgType : Nat) : DP_TextWriter :=
  let add_newline := msgType = DP_MSG_UNDO_POINT
  if 0 < w.multiline.length then
    { output := w.output ++ [' ', lbrace] ++ w.multiline ++
        (if add_newline then ['\n', rbrace, '\n', '\n', '\n']
         else ['\n', rbrace, '\n', '\n']),
      multiline := [] }
  else
    { output := w.output ++ (if add_newline then ['\n', '\n', '\n'] else ['\n', '\n']),
      multiline := w.multiline }

/-- The terminator the source actually appends to the main output when a
message is finished: the multiline flush or a plain line end, plus one
extra newline exactly for undo points. -/
def finishTerminator (multiline : List Char) (msgType : Nat) : List Char :=
  (if 0 < multiline.length then
    [' ', lbrace] ++ multiline ++ ['\n', rbrace, '\n']
   else ['\n']) ++
  (if msgType = DP_MSG_UNDO_POINT then ['\n'] else [])

/-- The base64 alphabet.  Modelled from the spec: dpcommon/base64.c is not
under the sources; this is the standard encoding the recordings use. -/
def base64Table : List Char :=
  ("ABCDEFGHIJKLMNOPQRSTUVWXYZabcdefghijklmnopqrstuvwxyz0123456789+/").toList

/-- Modelled from the spec: see base64Table. -/
def base64Digit (n : Nat) : Char := base64Table.getD n (Char.ofNat 65)

/-- DP_base64_encode.  Modelled from the spec: dpcommon/base64.c is not
under the sources; standard base64, three input bytes per four output
characters, the final group padded with = signs. -/
def DP_base64_encode : List Nat → List Char
  | [] => []
  | [a] =>
    [base64Digit (a / 4 % 64), base64Digit (a % 4 * 16), '=', '=']
  | [a, b] =>
    [base64Digit (a / 4 % 64), base64Digit (a % 4 * 16 + b / 16 % 16),
     base64Digit (b % 16 * 4), '=']
  | a :: b :: c :: rest =>
    [base64Digit (a / 4 % 64), base64Digit (a % 4 * 16 + b / 16 % 16),
     base64Digit (b % 16 * 4 + c / 64 % 4), base64Digit (c % 64)] ++
    DP_base64_encode rest

/-- The chunking performed by buffer_wrapped_argument, text_writer.c lines
290-304: cut the value into consecutive runs of BASE64_LINE_WIDTH
characters, the final chunk carrying whatever remains. -/
def chunks70 (s : List Char) : List (List Char) :=
  if s.length ≤ BASE64_LINE_WIDTH then [s]
  else s.take BASE64_LINE_WIDTH :: chunks70 (s.drop BASE64_LINE_WIDTH)
termination_by s.length
decreasing_by simp [BASE64_LINE_WIDTH]; omega

/-- buffer_line from text_writer.c lines 202-207: append a newline, a tab,
the key, an equals sign and the chunk to the multiline buffer. -/
def buffer_line (w : DP_TextWriter) (key chunk : List Char) : DP_TextWriter :=
  { w with multiline := w.multiline ++ '\n' :: '\t' :: key ++ '=' :: chunk }

/-- buffer_wrapped_argument from text_writer.c lines 278-307: buffer one
line per chunk of the wrapped value. -/
def buffer_wrapped_argument (w : DP_TextWriter) (key value : List Char) :
    DP_TextWriter :=
  (chunks70 value).foldl (fun acc c => buffer_line acc key c) w

/-- DP_text_writer_write_base64 from text_writer.c lines 309-330.  The
length argument of the source is the length of the byte list here (the
source takes an int and writes an empty inline value when it is not
positive). -/
def DP_text_writer_write_base64 (w : DP_TextWriter) (key : List Char)
    (value : List Nat) : DP_TextWriter :=
  if value.length = 0 then
    { w with output := w.output ++ ' ' :: key ++ ['='] }
  else
    let base64 := DP_base64_encode value
    if base64.length ≤ BASE64_LINE_WIDTH then
      { w with output := w.output ++ ' ' :: key ++ '=' :: base64 }
    else
      buffer_wrapped_argument w key base64

/-! ## Region fill (src/libengine/dpengine/flood_fill.h) -/

/-- A canvas as the fill reads it: a width, a height and a pixel color
function.  Modelled from the spec: only the declaration of DP_flood_fill
is under the sources, so the canvas, the algorithm and the result are
modelled from spec sections 4.5 and 8; colors are abstract Nat values and
the color distance is their absolute difference, with the tolerance a Nat
threshold (the source takes a double). -/
structure CanvasGrid where
  w : Nat
  h : Nat
  pix : Nat → Nat → Nat

/-- Color distance.  Modelled from the spec: see CanvasGrid. -/
def colorDist (a b : Nat) : Nat := max a b - min a b

/-- The pixels of the canvas. -/
def gridPixels (g : CanvasGrid) : Finset (Nat × Nat) :=
  Finset.range g.w ×ˢ Finset.range g.h

/-- Four-neighbour adjacency of pixels. -/
def adjacentPix (p q : Nat × Nat) : Prop :=
  (p.1 = q.1 ∧ (p.2 + 1 = q.2 ∨ q.2 + 1 = p.2)) ∨
  (p.2 = q.2 ∧ (p.1 + 1 = q.1 ∨ q.1 + 1 = p.1))

instance (p q : Nat × Nat) : Decidable (adjacentPix p q) := by
  unfold adjacentPix; infer_instance

/-- The admission test of the region growth: the pixel is on the canvas
and its color is within tolerance of the seed color.  Modelled from the
spec: the fill admits a pixel when its color distance to the color of the
seed pixel is within the tolerance; the fill color plays no part. -/
def inTolerance (g : CanvasGrid) (seedColor tol : Nat) (p : Nat × Nat) : Prop :=
  p ∈ gridPixels g ∧ colorDist (g.pix p.1 p.2) seedColor ≤ tol

instance (g : CanvasGrid) (seedColor tol : Nat) (p : Nat × Nat) :
    Decidable (inTolerance g seedColor tol p) := by
  unfold inTolerance; infer_instance

/-- One growth step of the region: adjoin every admissible pixel adjacent
to the region so far.  Modelled from the spec: see inTolerance. -/
def floodStep (g : CanvasGrid) (seedColor tol : Nat)
    (S : Finset (Nat × Nat)) : Finset (Nat × Nat) :=
  S ∪ (gridPixels g).filter
    (fun q => inTolerance g seedColor tol q ∧ ∃ p ∈ S, adjacentPix p q)

/-- The filled region: region growing from the seed, iterated until it
cannot change any more (width times height steps certainly suffice).
Modelled from the spec: see inTolerance. -/
def floodRegion (g : CanvasGrid) (x y tol : Nat) : Finset (Nat × Nat) :=
  let seedColor := g.pix x y
  let init : Finset (Nat × Nat) :=
    if inTolerance g seedColor tol (x, y) then {(x, y)} else ∅
  (floodStep g seedColor tol)^[g.w * g.h] init

/-- Connected admissibility, the specification-level description of the
region: the seed is admitted, and any admissible pixel adjacent to an
admitted pixel is admitted. -/
inductive FloodReach (g : CanvasGrid) (x y tol : Nat) : Nat × Nat → Prop where
  | seed : inTolerance g (g.pix x y) tol (x, y) → FloodReach g x y tol (x, y)
  | step : ∀ p q, FloodReach g x y tol p → adjacentPix p q →
      inTolerance g (g.pix x y) tol q → FloodReach g x y tol q

/-- The bounded image a successful fill produces: offset and size. -/
structure FillResult where
  x : Nat
  y : Nat
  w : Nat
  h : Nat
deriving DecidableEq

/-- DP_flood_fill.  Modelled from the spec: flood_fill.c is not under the
sources; per spec sections 4.5 and 8, the region grows from the seed by
the seed-color tolerance test, the call signals failure when the region
exceeds the size limit, and the produced image is the bounding box of the
filled pixels whose color actually changes, hence zero-size when the
region already has the fill color. -/
def DP_flood_fill (g : CanvasGrid) (x y fillColor tol sizeLimit : Nat) :
    Option FillResult :=
  let R := floodRegion g x y tol
  if sizeLimit < R.card then none
  else
    let changed := R.filter (fun p => g.pix p.1 p.2 ≠ fillColor)
    if hc : changed.Nonempty then
      let xs := changed.image Prod.fst
      let ys := changed.image Prod.snd
      some { x := xs.min' (hc.image _), y := ys.min' (hc.image _),
             w := xs.max' (hc.image _) + 1 - xs.min' (hc.image _),
             h := ys.max' (hc.image _) + 1 - ys.min' (hc.image _) }
    else some { x := 0, y := 0, w := 0, h := 0 }

/-! ### Example inputs used by witnesses and counterexamples -/

/-- A plain layer item with the given id. -/
def mkLayer (i : Nat) : LayerListItem :=
  { id := i, title := [], hidden := false, censored := false, fixed := false,
    isolated := false, group := false, children := 0, relIndex := 0,
    left := 0, right := 0 }

/-- Three sibling layers, display order top first: 0x101, 0x102, 0x103. -/
def exampleLayers3 : List LayerListItem := [mkLayer 257, mkLayer 258, mkLayer 259]

/-- A group layer with the given id. -/
def mkGroup (i : Nat) : LayerListItem := { mkLayer i with group := true }

/-- A dock selection at row 0 whose below sibling is an (unlocked) group:
the configuration on which the merge check misbehaves. -/
def exampleSelectionGroupBelow : DockSelection :=
  some ([mkLayer 257, mkGroup 514], 0)

/-- A single layer whose title is the string Layer 2. -/
def exampleTitledLayers : List LayerListItem :=
  [{ mkLayer 257 with title := ['L', 'a', 'y', 'e', 'r', ' ', '2'] }]

/-- The basename Layer. -/
def exampleBasename : List Char := ['L', 'a', 'y', 'e', 'r']

/-- A 2 by 2 canvas uniformly colored 5. -/
def exampleGrid : CanvasGrid := ⟨2, 2, fun _ _ => 5⟩

/-! # Theorems -/

/-! ## C10: scheme and default port -/

/-- C10: the TCP socket client identifies a drawing-session endpoint by the
URL scheme drawpile with default port 27750: the scheme constant equals
the string "drawpile" and the default port constant equals the string
"27750". -/
theorem tcp_socket_client_scheme_and_port :
    DP_TCP_SOCKET_CLIENT_SCHEME = "drawpile" ∧
    DP_TCP_SOCKET_CLIENT_DEFAULT_PORT = "27750" :=
  ⟨rfl, rfl⟩

/-! ## C2: command terminator in the text form -/

/-- C2 counterexample: for an ordinary (non-undo-point) message the source
terminates the command with a single newline, not with a blank line as the
claim states: on an empty writer the two behaviours differ. -/
theorem finish_message_no_blank_line_counterexample :
    DP_text_writer_finish_message ⟨[], []⟩ (DP_MSG_UNDO_POINT + 1) ≠
      finish_message_claimed ⟨[], []⟩ (DP_MSG_UNDO_POINT + 1) := by
  decide

/-- A two-element list is a suffix of a list with a known three-element
tail exactly when it matches the last two elements. -/
theorem pair_suffix_triple {α : Type} (u : List α) (p q r a b : α) :
    ([a, b] <:+ u ++ [p, q, r]) ↔ a = q ∧ b = r := by
  constructor
  · rintro ⟨s, hs⟩
    have h := congrArg List.reverse hs
    simp only [List.reverse_append, List.reverse_cons, List.reverse_nil,
      List.nil_append, List.cons_append, List.append_assoc] at h
    rw [List.cons.injEq, List.cons.injEq] at h
    exact ⟨h.2.1, h.1⟩
  · rintro ⟨rfl, rfl⟩
    exact ⟨u ++ [p], by simp⟩

/-- C2 (amended): DP_text_writer_finish_message terminates every command
with a single newline (after the closing brace line when a multiline
buffer is flushed), and appends one extra newline exactly when the message
type is DP_MSG_UNDO_POINT; consequently the terminator ends in a blank
line exactly for undo-point commands. -/
theorem finish_message_terminator (w : DP_TextWriter) (t : Nat) :
    (DP_text_writer_finish_message w t).output =
      w.output ++ finishTerminator w.multiline t ∧
    (['\n', '\n'] <:+ finishTerminator w.multiline t ↔ t = DP_MSG_UNDO_POINT) := by
  refine ⟨?_, ?_⟩
  · by_cases hm : 0 < w.multiline.length <;>
      by_cases ht : t = DP_MSG_UNDO_POINT <;>
      simp [DP_text_writer_finish_message, finishTerminator, hm, ht,
        List.append_assoc]
  · by_cases hm : 0 < w.multiline.length
    · by_cases ht : t = DP_MSG_UNDO_POINT
      · refine iff_of_true ?_ ht
        simp only [finishTerminator]
        rw [if_pos hm, if_pos ht]
        exact ⟨[' ', lbrace] ++ w.multiline ++ ['\n', rbrace], by simp⟩
      · refine iff_of_false ?_ ht
        simp only [finishTerminator]
        rw [if_pos hm, if_neg ht, List.append_nil]
        rw [show [' ', lbrace] ++ w.multiline ++ ['\n', rbrace, '\n'] =
              ([' ', lbrace] ++ w.multiline) ++ ['\n', rbrace, '\n'] by simp]
        rw [pair_suffix_triple]
        rintro ⟨h1, -⟩
        exact absurd h1 (by decide)
    · by_cases ht : t = DP_MSG_UNDO_POINT
      · refine iff_of_true ?_ ht
        simp only [finishTerminator]
        rw [if_neg hm, if_pos ht]
        exact ⟨[], rfl⟩
      · refine iff_of_false ?_ ht
        simp only [finishTerminator]
        rw [if_neg hm, if_neg ht, List.append_nil]
        intro hsuf
        have := hsuf.length_le
        simp at this

/-! ## C5: invalid reorder is rejected wholesale -/

/-- C5: when the moved layer index is out of range or the layer list has
fewer than two layers, handleMoveLayer emits no command at all and the
layer list model is unchanged. -/
theorem handleMoveLayer_invalid_is_noop (items : List LayerListItem)
    (oldIdx newIdx : Int)
    (h : items.length < 2 ∨ oldIdx < 0 ∨ (items.length : Int) ≤ oldIdx) :
    handleMoveLayer items oldIdx newIdx = (items, none) := by
  simp only [handleMoveLayer]
  split_ifs with h1 h2 h3 <;> first | rfl | (exfalso; omega)

/-- C5 witness: a concrete out-of-range move (the layer at display index 5
was deleted: only three layers remain) emits nothing. -/
theorem handleMoveLayer_invalid_is_noop_witness :
    ((exampleLayers3.length < 2 ∨ (5 : Int) < 0 ∨
        (exampleLayers3.length : Int) ≤ 5) ∧
      handleMoveLayer exampleLayers3 5 0 = (exampleLayers3, none)) :=
  ⟨by decide, handleMoveLayer_invalid_is_noop exampleLayers3 5 0 (by decide)⟩

/-! ## C3: merge-down availability check -/

/-- C3: the code bug exhibited concretely.  With the sibling directly
below the selection an unlocked group, canMergeCurrent nevertheless
returns true, because LayerListModel::data has no IsGroupRole case (the
role is not even declared in layerlist.h), so the group test reads an
invalid QVariant that converts to false; mergeSelected then happily emits
a layer delete whose merge target is the group.  The claim (and the spec)
require the merge to be rejected here. -/
theorem canMergeCurrent_group_below_bug :
    canMergeCurrent 0 (fun _ => false) exampleSelectionGroupBelow = true ∧
    (mkGroup 514).group = true ∧
    mergeSelected 1 0 (fun _ => false) exampleSelectionGroupBelow =
      some [.undoPoint 1, .layerDelete 1 257 514] := by
  refine ⟨by decide, by decide, by decide⟩

/-! ## C6: censor toggle is a read-modify-write -/

/-- C6: the flags byte of the layer-attributes command emitted by
censorSelected carries the censor request in the censor bit while the
fixed and isolated bits of the current attributeFlags are preserved, and
no other bit is set (the byte stays below 8). -/
theorem censorSelected_read_modify_write (contextId defaultLayer : Nat)
    (locked : Nat → Bool) (censor : Bool) (sibs : List LayerListItem)
    (row : Nat) (layer : LayerListItem) (hrow : sibs[row]? = some layer) :
    censorSelected contextId defaultLayer locked censor (some (sibs, row)) =
      some (.layerAttributes contextId layer.id 0
        ((ChangeFlags.set {} DP_MSG_LAYER_ATTRIBUTES_FLAGS_CENSOR censor).update
          (attributeFlags layer))) ∧
    ((ChangeFlags.set {} DP_MSG_LAYER_ATTRIBUTES_FLAGS_CENSOR censor).update
        (attributeFlags layer)).testBit 0 = censor ∧
    ((ChangeFlags.set {} DP_MSG_LAYER_ATTRIBUTES_FLAGS_CENSOR censor).update
        (attributeFlags layer)).testBit 1 = layer.fixed ∧
    ((ChangeFlags.set {} DP_MSG_LAYER_ATTRIBUTES_FLAGS_CENSOR censor).update
        (attributeFlags layer)).testBit 2 = layer.isolated ∧
    ((ChangeFlags.set {} DP_MSG_LAYER_ATTRIBUTES_FLAGS_CENSOR censor).update
        (attributeFlags layer)) < 8 := by
  refine ⟨by simp [censorSelected, hrow], ?_, ?_, ?_, ?_⟩ <;>
    rcases layer with ⟨id, title, hidden, c, f, iso, grp, ch, ri, le, ri2⟩ <;>
    cases censor <;> cases c <;> cases f <;> cases iso <;>
    simp [ChangeFlags.set, ChangeFlags.update, attributeFlags,
      DP_MSG_LAYER_ATTRIBUTES_FLAGS_CENSOR, LayerAttributesMessage_FLAGS_CENSOR,
      LayerAttributesMessage_FLAGS_FIXED, LayerAttributesMessage_FLAGS_ISOLATED] <;>
    decide

/-- C6 witness: a concrete censor toggle on a fixed, isolated layer. -/
theorem censorSelected_read_modify_write_witness :
    ([{ mkLayer 257 with fixed := true, isolated := true }][0]? =
        some { mkLayer 257 with fixed := true, isolated := true } ∧
      censorSelected 3 0 (fun _ => false) true
          (some ([{ mkLayer 257 with fixed := true, isolated := true }], 0)) =
        some (.layerAttributes 3 257 0
          ((ChangeFlags.set {} DP_MSG_LAYER_ATTRIBUTES_FLAGS_CENSOR true).update
            (attributeFlags { mkLayer 257 with fixed := true, isolated := true })))) :=
  ⟨by decide,
    (censorSelected_read_modify_write 3 0 (fun _ => false) true
      [{ mkLayer 257 with fixed := true, isolated := true }] 0
      { mkLayer 257 with fixed := true, isolated := true } (by decide)).1⟩

/-! ## C4: layer id allocation -/

theorem and_ff00 (x : Nat) : x &&& 0xff00 = (x / 256 % 256) * 256 := by
  have h0 : (0xff00 : Nat) = (2^8 - 1) <<< 8 := by decide
  rw [h0]
  have h1 : x &&& ((2^8 - 1) <<< 8) = ((x >>> 8) &&& (2^8 - 1)) <<< 8 := by
    apply Nat.eq_of_testBit_eq
    intro j
    simp only [Nat.testBit_and, Nat.testBit_shiftLeft, Nat.testBit_shiftRight]
    by_cases hj : 8 ≤ j
    · simp [hj, show 8 + (j - 8) = j from by omega, Bool.and_comm, Bool.and_left_comm]
    · simp [hj]
  rw [h1, Nat.shiftRight_eq_div_pow, Nat.and_pow_two_sub_one_eq_mod, Nat.shiftLeft_eq]

theorem shl8_or_eq_add (u i : Nat) (hi : i < 256) : (u <<< 8) ||| i = 256 * u + i := by
  rw [Nat.shiftLeft_eq]
  have h := Nat.mul_add_lt_is_or (i := 8) (b := i) (by exact hi) u
  rw [show u * 2^8 = 2^8 * u from by ring, ← h]

theorem mul256_add_and_ff00 (u i : Nat) (hu : u < 256) (hi : i < 256) :
    (256 * u + i) &&& 0xff00 = u <<< 8 := by
  rw [and_ff00, Nat.shiftLeft_eq]
  have h2 : (256 * u + i) / 256 = u := by omega
  rw [h2, Nat.mod_eq_of_lt hu]

theorem creatorId_mul256_add (u i : Nat) (hu : u < 256) (hi : i < 256) :
    ((256 * u + i) &&& 0xff00) >>> 8 = u := by
  rw [mul256_add_and_ff00 u i hu hi, Nat.shiftLeft_eq, Nat.shiftRight_eq_div_pow]
  norm_num

theorem go_spec_aux (taken : List Nat) (pre : Nat) :
    ∀ n i, 256 - i ≤ n → (∀ j, j < i → (pre ||| j) ∈ taken) →
    ((∃ k, i ≤ k ∧ k < 256 ∧ (pre ||| k) ∉ taken ∧
      (∀ j, j < k → (pre ||| j) ∈ taken) ∧
      getAvailableLayerId_go taken pre i = pre ||| k) ∨
    ((∀ j, j < 256 → (pre ||| j) ∈ taken) ∧
      getAvailableLayerId_go taken pre i = 0)) := by
  intro n
  induction n with
  | zero =>
    intro i hle hprev
    have hge : ¬ i < 256 := by omega
    right
    refine ⟨fun j hj => hprev j (by omega), ?_⟩
    rw [getAvailableLayerId_go, dif_neg hge]
  | succ n ih =>
    intro i hle hprev
    by_cases hlt : i < 256
    · by_cases hc : taken.contains (pre ||| i) = true
      · have hmem : (pre ||| i) ∈ taken := by simpa using hc
        have hprev2 : ∀ j, j < i + 1 → (pre ||| j) ∈ taken := by
          intro j hj
          rcases Nat.lt_or_ge j i with hj2 | hj2
          · exact hprev j hj2
          · have : j = i := by omega
            subst this
            exact hmem
        rcases ih (i+1) (by omega) hprev2 with ⟨k, hk1, hk2, hk3, hk4, hk5⟩ | ⟨hall, hz⟩
        · left
          exact ⟨k, by omega, hk2, hk3, hk4, by
            rw [getAvailableLayerId_go, dif_pos hlt, if_pos hc]; exact hk5⟩
        · right
          exact ⟨hall, by rw [getAvailableLayerId_go, dif_pos hlt, if_pos hc]; exact hz⟩
      · left
        refine ⟨i, le_refl i, hlt, by simpa using hc, hprev, ?_⟩
        rw [getAvailableLayerId_go, dif_pos hlt, if_neg hc]
    · right
      refine ⟨fun j hj => hprev j (by omega), ?_⟩
      rw [getAvailableLayerId_go, dif_neg hlt]

theorem mem_takenIds (items : List LayerListItem) (u i : Nat) (hu : u < 256)
    (hi : i < 256) :
    ((u <<< 8) ||| i) ∈
      (items.filter (fun it => it.id &&& 0xff00 == u <<< 8)).map (fun it => it.id) ↔
    ∃ it ∈ items, it.id = 256 * u + i := by
  rw [shl8_or_eq_add u i hi]
  simp only [List.mem_map, List.mem_filter]
  constructor
  · rintro ⟨it, ⟨hmem, hflt⟩, hid⟩
    exact ⟨it, hmem, hid⟩
  · rintro ⟨it, hmem, hid⟩
    refine ⟨it, ⟨hmem, ?_⟩, hid⟩
    rw [hid]
    simpa using mul256_add_and_ff00 u i hu hi

/-- C4: for a local user id u below 256, getAvailableLayerId returns
256 u + i for the smallest i in 0..255 such that no existing layer has
that id (with all smaller namespace ids taken), and 0 when every one of
the 256 ids of the namespace is taken; the creator id recovered from the
returned id by the high byte is u. -/
theorem getAvailableLayerId_spec (items : List LayerListItem) (u : Nat)
    (hu : u < 256) :
    (∃ i, i < 256 ∧ (∀ it ∈ items, it.id ≠ 256 * u + i) ∧
      (∀ j, j < i → ∃ it ∈ items, it.id = 256 * u + j) ∧
      getAvailableLayerId items u = 256 * u + i ∧
      creatorId (getAvailableLayerId items u) = u) ∨
    ((∀ i, i < 256 → ∃ it ∈ items, it.id = 256 * u + i) ∧
      getAvailableLayerId items u = 0) := by
  have base := go_spec_aux
    ((items.filter (fun it => it.id &&& 0xff00 == u <<< 8)).map (fun it => it.id))
    (u <<< 8) 256 0 (by omega) (fun j hj => absurd hj (by omega))
  have hunfold : getAvailableLayerId items u =
      getAvailableLayerId_go
        ((items.filter (fun it => it.id &&& 0xff00 == u <<< 8)).map (fun it => it.id))
        (u <<< 8) 0 := rfl
  rcases base with ⟨k, _, hk2, hk3, hk4, hk5⟩ | ⟨hall, hz⟩
  · left
    have hres : getAvailableLayerId items u = 256 * u + k := by
      rw [hunfold, hk5, shl8_or_eq_add u k hk2]
    refine ⟨k, hk2, ?_, ?_, hres, ?_⟩
    · intro it hmem hid
      exact hk3 ((mem_takenIds items u k hu hk2).mpr ⟨it, hmem, hid⟩)
    · intro j hj
      exact (mem_takenIds items u j hu (by omega)).mp (hk4 j hj)
    · rw [hres]
      exact creatorId_mul256_add u k hu hk2
  · right
    refine ⟨?_, by rw [hunfold]; exact hz⟩
    intro i hi
    exact (mem_takenIds items u i hu hi).mp (hall i hi)

/-- C4 witness: user 1 with layers 0x101, 0x102 and 0x103 present. -/
theorem getAvailableLayerId_spec_witness :
    (1 < 256) ∧
    ((∃ i, i < 256 ∧ (∀ it ∈ exampleLayers3, it.id ≠ 256 * 1 + i) ∧
      (∀ j, j < i → ∃ it ∈ exampleLayers3, it.id = 256 * 1 + j) ∧
      getAvailableLayerId exampleLayers3 1 = 256 * 1 + i ∧
      creatorId (getAvailableLayerId exampleLayers3 1) = 1) ∨
    ((∀ i, i < 256 → ∃ it ∈ exampleLayers3, it.id = 256 * 1 + i) ∧
      getAvailableLayerId exampleLayers3 1 = 0)) :=
  ⟨by decide, getAvailableLayerId_spec exampleLayers3 1 (by decide)⟩

/-! ## C7: base64 field rendering -/

theorem base64_length (v : List Nat) :
    (DP_base64_encode v).length = 4 * ((v.length + 2) / 3) := by
  induction v using DP_base64_encode.induct with
  | case1 => simp [DP_base64_encode]
  | case2 a => simp [DP_base64_encode]
  | case3 a b => simp [DP_base64_encode]
  | case4 a b c rest ih =>
    simp only [DP_base64_encode, List.length_append, List.length_cons, ih]
    simp only [List.length_cons, List.length_nil]
    omega

theorem chunks70_flatten (s : List Char) : (chunks70 s).flatten = s := by
  induction s using chunks70.induct with
  | case1 s h => rw [chunks70, if_pos h]; simp
  | case2 s h ih => rw [chunks70, if_neg h]; simp [ih]

theorem chunks70_mem_length (s : List Char) (c : List Char) (hc : c ∈ chunks70 s) :
    c.length ≤ 70 ∧ (0 < s.length → 0 < c.length) := by
  induction s using chunks70.induct with
  | case1 s h =>
    rw [chunks70, if_pos h] at hc
    simp at hc
    subst hc
    exact ⟨h, fun h2 => h2⟩
  | case2 s h ih =>
    rw [chunks70, if_neg h] at hc
    rcases List.mem_cons.mp hc with rfl | hc2
    · constructor
      · simp [BASE64_LINE_WIDTH]
      · intro
        simp [BASE64_LINE_WIDTH]
        omega
    · rcases ih hc2 with ⟨h1, h2⟩
      refine ⟨h1, fun _ => h2 ?_⟩
      simp [BASE64_LINE_WIDTH] at h ⊢
      omega

theorem chunks70_dropLast_length (s : List Char) (c : List Char)
    (hc : c ∈ (chunks70 s).dropLast) : c.length = 70 := by
  induction s using chunks70.induct with
  | case1 s h =>
    rw [chunks70, if_pos h] at hc
    simp at hc
  | case2 s h ih =>
    rw [chunks70, if_neg h] at hc
    have hne : chunks70 (s.drop BASE64_LINE_WIDTH) ≠ [] := by
      rw [chunks70]
      split <;> simp
    rw [List.dropLast_cons_of_ne_nil hne] at hc
    rcases List.mem_cons.mp hc with rfl | hc2
    · simp [BASE64_LINE_WIDTH] at h ⊢
      omega
    · exact ih hc2

theorem foldl_buffer_line (key : List Char) (cs : List (List Char)) :
    ∀ w : DP_TextWriter,
    (cs.foldl (fun acc c => buffer_line acc key c) w).output = w.output ∧
    (cs.foldl (fun acc c => buffer_line acc key c) w).multiline =
      w.multiline ++ (cs.map (fun c => '\n' :: '\t' :: key ++ '=' :: c)).flatten := by
  induction cs with
  | nil => intro w; simp
  | cons c cs ih =>
    intro w
    rcases ih (buffer_line w key c) with ⟨h1, h2⟩
    refine ⟨by simpa [buffer_line] using h1, ?_⟩
    rw [List.foldl_cons, h2]
    simp [buffer_line]

/-- C7: a base64 field is written inline as a space, the key, an equals
sign and the encoded value when the encoded length is at most 70 (with an
empty inline value for an empty byte list); when the encoded length is
over 70 the value instead goes to the multiline buffer as continuation
lines, each prefixed by a newline, a tab, the key and an equals sign, the
chunks concatenating back to the encoded value, every chunk except
possibly the last exactly 70 characters, all of them nonempty and at most
70.  The encoded length is 4 times the ceiling of a third of the byte
count. -/
theorem write_base64_spec (w : DP_TextWriter) (key : List Char)
    (value : List Nat) :
    (DP_base64_encode value).length = 4 * ((value.length + 2) / 3) ∧
    (value.length = 0 →
      DP_text_writer_write_base64 w key value =
        { w with output := w.output ++ ' ' :: key ++ ['='] }) ∧
    (0 < value.length → (DP_base64_encode value).length ≤ 70 →
      DP_text_writer_write_base64 w key value =
        { w with output := w.output ++ ' ' :: key ++ '=' :: DP_base64_encode value }) ∧
    (70 < (DP_base64_encode value).length →
      (DP_text_writer_write_base64 w key value).output = w.output ∧
      (DP_text_writer_write_base64 w key value).multiline =
        w.multiline ++
          ((chunks70 (DP_base64_encode value)).map
            (fun c => '\n' :: '\t' :: key ++ '=' :: c)).flatten ∧
      (chunks70 (DP_base64_encode value)).flatten = DP_base64_encode value ∧
      (∀ c ∈ (chunks70 (DP_base64_encode value)).dropLast, c.length = 70) ∧
      (∀ c ∈ chunks70 (DP_base64_encode value), 0 < c.length ∧ c.length ≤ 70)) := by
  refine ⟨base64_length value, ?_, ?_, ?_⟩
  · intro h0
    rw [DP_text_writer_write_base64, if_pos h0]
  · intro hpos hle
    rw [DP_text_writer_write_base64, if_neg (by omega)]
    simp only [BASE64_LINE_WIDTH]
    rw [if_pos hle]
  · intro hgt
    have hvpos : value.length ≠ 0 := by
      intro h0
      rw [base64_length, h0] at hgt
      simp at hgt
    have hb : ¬ (DP_base64_encode value).length ≤ BASE64_LINE_WIDTH := by
      simp only [BASE64_LINE_WIDTH]
      omega
    rw [DP_text_writer_write_base64, if_neg hvpos]
    simp only [hb, if_false, ite_false]
    rcases foldl_buffer_line key (chunks70 (DP_base64_encode value)) w with ⟨h1, h2⟩
    refine ⟨h1, h2, chunks70_flatten _, fun c hc => chunks70_dropLast_length _ c hc, ?_⟩
    intro c hc
    rcases chunks70_mem_length _ c hc with ⟨hle2, hpos2⟩
    exact ⟨hpos2 (by omega), hle2⟩

/-- C7 witness: a 54-byte value encodes to 72 base64 characters and is
wrapped into a 70-character line and a 2-character line, while a 3-byte
value is written inline. -/
theorem write_base64_spec_witness :
    ((0:Nat) < (List.replicate 54 (0:Nat)).length ∧
      70 < (DP_base64_encode (List.replicate 54 0)).length ∧
      (DP_text_writer_write_base64 ⟨[], []⟩ ['k'] (List.replicate 54 0)).output = [] ∧
      (DP_text_writer_write_base64 ⟨[], []⟩ ['k'] [1, 2, 3]) =
        { output := ' ' :: 'k' :: '=' :: DP_base64_encode [1, 2, 3],
          multiline := [] } ∧
      (DP_text_writer_write_base64 ⟨[], []⟩ ['e'] []) =
        { output := [' ', 'e', '='], multiline := [] }) := by
  refine ⟨by decide, by decide, ?_, ?_, ?_⟩
  · exact ((write_base64_spec ⟨[], []⟩ ['k'] (List.replicate 54 0)).2.2.2 (by decide)).1
  · have h := (write_base64_spec ⟨[], []⟩ ['k'] [1, 2, 3]).2.2.1 (by decide) (by decide)
    simpa using h
  · have h := (write_base64_spec ⟨[], []⟩ ['e'] []).2.1 (by decide)
    simpa using h

/-! ## C9: unique layer name generation -/

theorem digit_char_toNat (m : Nat) (hm : m < 10) :
    (Char.ofNat (48 + m)).toNat = 48 + m := by
  interval_cases m <;> decide

theorem digit_char_isDigit (m : Nat) (hm : m < 10) :
    (Char.ofNat (48 + m)).isDigit = true := by
  interval_cases m <;> decide

theorem digitsToInt_concat (xs : List Char) (c : Char) :
    digitsToInt (xs ++ [c]) = digitsToInt xs * 10 + (c.toNat - 48) := by
  simp [digitsToInt, List.foldl_append]

theorem natRepr_ne_nil (n : Nat) : natRepr n ≠ [] := by
  rw [natRepr]
  split <;> simp

theorem natRepr_digits (n : Nat) : ∀ c ∈ natRepr n, c.isDigit = true := by
  induction n using Nat.strong_induction_on with
  | _ n ih =>
    rw [natRepr]
    split
    · intro c hc
      simp at hc
      subst hc
      exact digit_char_isDigit n (by omega)
    · intro c hc
      rcases List.mem_append.mp hc with hc2 | hc2
      · exact ih (n / 10) (Nat.div_lt_self (by omega) (by omega)) c hc2
      · simp at hc2
        subst hc2
        exact digit_char_isDigit (n % 10) (Nat.mod_lt n (by omega))

theorem digitsToInt_natRepr (n : Nat) : digitsToInt (natRepr n) = n := by
  induction n using Nat.strong_induction_on with
  | _ n ih =>
    rw [natRepr]
    split
    · simp [digitsToInt]
      rw [digit_char_toNat n (by omega)]
      omega
    · rw [digitsToInt_concat, ih (n / 10) (Nat.div_lt_self (by omega) (by omega)),
        digit_char_toNat (n % 10) (Nat.mod_lt n (by omega))]
      omega

theorem qStringToInt_natRepr (n : Nat) (hn : n ≤ 2147483647) :
    qStringToInt (natRepr n) = n := by
  rw [qStringToInt, digitsToInt_natRepr]
  simp [hn]

theorem takeWhile_all_append {p : Char → Bool} (A : List Char)
    (hA : ∀ c ∈ A, p c = true) (b : Char) (hb : p b = false) (B : List Char) :
    (A ++ b :: B).takeWhile p = A := by
  induction A with
  | nil => simp [List.takeWhile, hb]
  | cons a A ih =>
    have ha : p a = true := hA a (by simp)
    simp only [List.cons_append, List.takeWhile_cons, ha, if_true]
    rw [ih (fun c hc => hA c (by simp [hc]))]

theorem trailingDigits_append_space (xs ds : List Char)
    (hds : ∀ c ∈ ds, c.isDigit = true) :
    trailingDigits (xs ++ ' ' :: ds) = ds := by
  unfold trailingDigits
  rw [show (xs ++ ' ' :: ds).reverse = ds.reverse ++ ' ' :: xs.reverse by
    simp [List.reverse_append]]
  rw [takeWhile_all_append ds.reverse (fun c hc => hds c (List.mem_reverse.mp hc))
    ' ' (by decide) xs.reverse]
  simp

theorem suffixFold_cons (b : List Char) (l : LayerListItem)
    (ls : List LayerListItem) (acc : Nat) :
    suffixFold b (l :: ls) acc =
      suffixFold b ls
        (if !(trailingDigits l.title).isEmpty && b.isPrefixOf l.title then
          max acc (qStringToInt (trailingDigits l.title))
        else acc) := by
  simp [suffixFold]

theorem suffixFold_ge_acc (b : List Char) (items : List LayerListItem) :
    ∀ acc, acc ≤ suffixFold b items acc := by
  induction items with
  | nil => intro acc; simp [suffixFold]
  | cons l ls ih =>
    intro acc
    rw [suffixFold_cons]
    split
    · exact le_trans (le_max_left _ _) (ih _)
    · exact ih acc

theorem suffixFold_ge_val (b : List Char) (items : List LayerListItem) :
    ∀ acc l, l ∈ items →
      (!(trailingDigits l.title).isEmpty && b.isPrefixOf l.title) = true →
      qStringToInt (trailingDigits l.title) ≤ suffixFold b items acc := by
  induction items with
  | nil => intro acc l hl; simp at hl
  | cons x ls ih =>
    intro acc l hl hcond
    rw [suffixFold_cons]
    rcases List.mem_cons.mp hl with rfl | hl2
    · rw [if_pos hcond]
      exact le_trans (le_max_right _ _) (suffixFold_ge_acc b ls _)
    · split
      · exact ih _ l hl2 hcond
      · exact ih _ l hl2 hcond

theorem suffixFold_le (b : List Char) (items : List LayerListItem) (B : Nat)
    (hall : ∀ l ∈ items,
      (!(trailingDigits l.title).isEmpty && b.isPrefixOf l.title) = true →
      qStringToInt (trailingDigits l.title) ≤ B) :
    ∀ acc, acc ≤ B → suffixFold b items acc ≤ B := by
  induction items with
  | nil => intro acc hacc; simpa [suffixFold] using hacc
  | cons x ls ih =>
    intro acc hacc
    rw [suffixFold_cons]
    have hall2 : ∀ l ∈ ls, _ := fun l hl => hall l (by simp [hl])
    split
    · exact ih hall2 _ (by
        rename_i hcond
        exact max_le hacc (hall x (by simp) hcond))
    · exact ih hall2 _ hacc

theorem suffixFold_zero_of_none (b : List Char) (items : List LayerListItem)
    (hnone : ∀ l ∈ items,
      (!(trailingDigits l.title).isEmpty && b.isPrefixOf l.title) = false) :
    ∀ acc, suffixFold b items acc = acc := by
  induction items with
  | nil => intro acc; simp [suffixFold]
  | cons x ls ih =>
    intro acc
    rw [suffixFold_cons, if_neg (by simp [hnone x (by simp)])]
    exact ih (fun l hl => hnone l (by simp [hl])) acc

/-- C9: getAvailableLayerName returns the stripped basename, a space and
the decimal rendering of N, where N is one greater than the largest
decimal suffix among the titles of existing layers that start with the
stripped basename (and N = 1 when no such suffixed title exists); provided
no title's suffix saturates the C int range, the returned name differs
from every existing layer title. -/
theorem getAvailableLayerName_spec (items : List LayerListItem)
    (basename0 : List Char)
    (hof : ∀ l ∈ items, qStringToInt (trailingDigits l.title) < 2147483647) :
    getAvailableLayerName items basename0 =
      stripSuffixNumber basename0 ++ ' ' ::
        natRepr (suffixFold (stripSuffixNumber basename0) items 0 + 1) ∧
    (∀ l ∈ items,
      (!(trailingDigits l.title).isEmpty &&
        (stripSuffixNumber basename0).isPrefixOf l.title) = true →
      qStringToInt (trailingDigits l.title) <
        suffixFold (stripSuffixNumber basename0) items 0 + 1) ∧
    ((∀ l ∈ items,
      (!(trailingDigits l.title).isEmpty &&
        (stripSuffixNumber basename0).isPrefixOf l.title) = false) →
      suffixFold (stripSuffixNumber basename0) items 0 + 1 = 1) ∧
    (∀ l ∈ items, l.title ≠ getAvailableLayerName items basename0) := by
  refine ⟨rfl, ?_, ?_, ?_⟩
  · intro l hl hcond
    have := suffixFold_ge_val (stripSuffixNumber basename0) items 0 l hl hcond
    omega
  · intro hnone
    rw [suffixFold_zero_of_none _ _ hnone 0]
  · intro l hl heq
    have hNle : suffixFold (stripSuffixNumber basename0) items 0 + 1 ≤ 2147483647 := by
      have := suffixFold_le (stripSuffixNumber basename0) items 2147483646
        (fun x hx _ => by have := hof x hx; omega) 0 (by omega)
      omega
    have heq2 : l.title = stripSuffixNumber basename0 ++ ' ' ::
        natRepr (suffixFold (stripSuffixNumber basename0) items 0 + 1) := heq
    have hds : trailingDigits l.title =
        natRepr (suffixFold (stripSuffixNumber basename0) items 0 + 1) := by
      rw [heq2]
      exact trailingDigits_append_space _ _ (natRepr_digits _)
    have hcond : (!(trailingDigits l.title).isEmpty &&
        (stripSuffixNumber basename0).isPrefixOf l.title) = true := by
      rw [hds, heq2]
      have h1 : (natRepr (suffixFold (stripSuffixNumber basename0) items 0 + 1)).isEmpty
          = false := by
        cases hni : natRepr (suffixFold (stripSuffixNumber basename0) items 0 + 1) with
        | nil => exact absurd hni (natRepr_ne_nil _)
        | cons a t => rfl
      have h2 : (stripSuffixNumber basename0).isPrefixOf
          (stripSuffixNumber basename0 ++ ' ' ::
            natRepr (suffixFold (stripSuffixNumber basename0) items 0 + 1)) = true := by
        rw [List.isPrefixOf_iff_prefix]
        exact List.prefix_append _ _
      rw [h1, h2]
      rfl
    have hge := suffixFold_ge_val (stripSuffixNumber basename0) items 0 l hl hcond
    rw [hds, qStringToInt_natRepr _ hNle] at hge
    omega

/-- C9 witness: one layer titled Layer 2 and the basename Layer: the next
name is Layer 3 and it differs from the existing title. -/
theorem getAvailableLayerName_spec_witness :
    ((∀ l ∈ exampleTitledLayers,
        qStringToInt (trailingDigits l.title) < 2147483647) ∧
      (getAvailableLayerName exampleTitledLayers exampleBasename =
        stripSuffixNumber exampleBasename ++ ' ' ::
          natRepr (suffixFold (stripSuffixNumber exampleBasename)
            exampleTitledLayers 0 + 1) ∧
      (∀ l ∈ exampleTitledLayers,
        (!(trailingDigits l.title).isEmpty &&
          (stripSuffixNumber exampleBasename).isPrefixOf l.title) = true →
        qStringToInt (trailingDigits l.title) <
          suffixFold (stripSuffixNumber exampleBasename) exampleTitledLayers 0 + 1) ∧
      ((∀ l ∈ exampleTitledLayers,
        (!(trailingDigits l.title).isEmpty &&
          (stripSuffixNumber exampleBasename).isPrefixOf l.title) = false) →
        suffixFold (stripSuffixNumber exampleBasename) exampleTitledLayers 0 + 1 = 1) ∧
      (∀ l ∈ exampleTitledLayers,
        l.title ≠ getAvailableLayerName exampleTitledLayers exampleBasename))) :=
  ⟨by decide, getAvailableLayerName_spec exampleTitledLayers exampleBasename (by decide)⟩

/-! ## C1: layer reorder command payload -/

theorem get?_append_len {α : Type} : ∀ (A B : List α) (k : Nat),
    (A ++ B).get? (A.length + k) = B.get? k := by
  intro A
  induction A with
  | nil => intro B k; simp
  | cons a A ih =>
    intro B k
    have h : (a :: A).length + k = (A.length + k) + 1 := by simp; omega
    rw [h]
    simpa using ih B k

theorem eraseIdx_append_len {α : Type} : ∀ (A B : List α) (k : Nat),
    (A ++ B).eraseIdx (A.length + k) = A ++ B.eraseIdx k := by
  intro A
  induction A with
  | nil => intro B k; simp
  | cons a A ih =>
    intro B k
    have h : (a :: A).length + k = (A.length + k) + 1 := by simp; omega
    rw [h]
    simp only [List.cons_append, List.eraseIdx_cons_succ]
    rw [ih B k]

theorem insertIdx_append_len {α : Type} : ∀ (A B : List α) (k : Nat) (x : α),
    List.insertIdx (A.length + k) x (A ++ B) = A ++ List.insertIdx k x B := by
  intro A
  induction A with
  | nil => intro B k x; simp
  | cons a A ih =>
    intro B k x
    have h : (a :: A).length + k = (A.length + k) + 1 := by simp; omega
    rw [h]
    simp only [List.cons_append, List.insertIdx_succ_cons]
    rw [ih B k x]

theorem listMove_append_mid {α : Type} (xs ys zs : List α) (v : α) :
    listMove (xs ++ ys ++ v :: zs) (xs.length + ys.length) xs.length =
      xs ++ v :: (ys ++ zs) := by
  unfold listMove
  have h2 : xs.length + ys.length = (xs ++ ys).length + 0 := by simp
  rw [h2, get?_append_len, List.get?_cons_zero]
  show List.insertIdx xs.length v
      ((xs ++ ys ++ v :: zs).eraseIdx ((xs ++ ys).length + 0)) =
    xs ++ v :: (ys ++ zs)
  rw [eraseIdx_append_len, List.eraseIdx_cons_zero]
  rw [show (xs ++ ys) ++ zs = xs ++ (ys ++ zs) from List.append_assoc xs ys zs]
  rw [show xs.length = xs.length + 0 from by omega, insertIdx_append_len]
  rfl

theorem flatMap_pairs_length (l : List LayerListItem) :
    (l.flatMap (fun li => [li.id, 0])).length = 2 * l.length := by
  induction l with
  | nil => simp
  | cons a l ih => simp [ih]; omega

theorem flat_move2 (xs ys zs : List LayerListItem) (v : LayerListItem) :
    listMove (listMove
        ((xs ++ ys ++ v :: zs).flatMap (fun li => [li.id, 0]))
        (2 * (xs.length + ys.length)) (2 * xs.length))
      (2 * (xs.length + ys.length) + 1) (2 * xs.length + 1) =
    ((xs ++ v :: (ys ++ zs)).flatMap (fun li => [li.id, 0])) := by
  have hA := flatMap_pairs_length xs
  have hB := flatMap_pairs_length ys
  have hexp : (xs ++ ys ++ v :: zs).flatMap (fun li => [li.id, 0]) =
      (xs.flatMap fun li => [li.id, 0]) ++ (ys.flatMap fun li => [li.id, 0]) ++
        v.id :: ((0:Nat) :: zs.flatMap fun li => [li.id, 0]) := by
    simp [List.flatMap_append]
  have hidx1 : 2 * (xs.length + ys.length) =
      (xs.flatMap fun li => [li.id, 0]).length +
        (ys.flatMap fun li => [li.id, 0]).length := by
    rw [hA, hB]; ring
  have hidx2 : 2 * xs.length = (xs.flatMap fun li => [li.id, 0]).length := hA.symm
  rw [hexp, hidx1, hidx2, listMove_append_mid]
  have hre : (xs.flatMap fun li => [li.id, 0]) ++
      v.id :: ((ys.flatMap fun li => [li.id, 0]) ++
        (0:Nat) :: (zs.flatMap fun li => [li.id, 0])) =
      ((xs.flatMap fun li => [li.id, 0]) ++ [v.id]) ++
        (ys.flatMap fun li => [li.id, 0]) ++
        (0:Nat) :: (zs.flatMap fun li => [li.id, 0]) := by
    simp
  have hidx3 : (xs.flatMap fun li => [li.id, 0]).length +
      (ys.flatMap fun li => [li.id, 0]).length + 1 =
      ((xs.flatMap fun li => [li.id, 0]) ++ [v.id]).length +
        (ys.flatMap fun li => [li.id, 0]).length := by
    simp; omega
  have hidx4 : (xs.flatMap fun li => [li.id, 0]).length + 1 =
      ((xs.flatMap fun li => [li.id, 0]) ++ [v.id]).length := by
    simp
  rw [hre, hidx3, hidx4, listMove_append_mid]
  simp [List.flatMap_append]

theorem perm_insertIdx {α : Type} (x : α) :
    ∀ (t : Nat) (l : List α), t ≤ l.length →
      List.Perm (List.insertIdx t x l) (x :: l) := by
  intro t
  induction t with
  | zero => intro l h; simp
  | succ t ih =>
    intro l h
    cases l with
    | nil => simp at h
    | cons a l2 =>
      have h2 : List.insertIdx (t+1) x (a :: l2) = a :: List.insertIdx t x l2 :=
        List.insertIdx_succ_cons l2 a x t
      rw [h2]
      exact List.Perm.trans ((ih l2 (by simpa using h)).cons a)
        (List.Perm.swap x a l2)

theorem perm_cons_eraseIdx {α : Type} :
    ∀ (l : List α) (f : Nat) (x : α), l.get? f = some x →
      List.Perm l (x :: l.eraseIdx f) := by
  intro l
  induction l with
  | nil => intro f x h; simp at h
  | cons a l2 ih =>
    intro f x h
    cases f with
    | zero =>
      simp at h
      subst h
      simp
    | succ f =>
      simp only [List.get?_cons_succ] at h
      have h3 := (ih f x h).cons a
      refine List.Perm.trans h3 ?_
      simpa using List.Perm.swap x a (l2.eraseIdx f)

theorem listMove_perm {α : Type} (l : List α) (f t : Nat) (hf : f < l.length)
    (ht : t ≤ l.length - 1) : List.Perm (listMove l f t) l := by
  have hg : ∃ x, l.get? f = some x := by
    rw [List.get?_eq_getElem?]
    exact ⟨l[f], by simp [List.getElem?_eq_getElem hf]⟩
  rcases hg with ⟨x, hx⟩
  unfold listMove
  rw [hx]
  have h1 : List.Perm (List.insertIdx t x (l.eraseIdx f)) (x :: l.eraseIdx f) := by
    apply perm_insertIdx
    rw [List.length_eraseIdx_of_lt hf]
    exact ht
  exact List.Perm.trans h1 (perm_cons_eraseIdx l f x hx).symm

theorem count_flatMap_pairs (l : List LayerListItem) (x : Nat) (hx : x ≠ 0) :
    (l.flatMap (fun li => [li.id, 0])).count x =
      (l.map (fun li => li.id)).count x := by
  induction l with
  | nil => simp
  | cons a l ih =>
    have h0 : ((0:Nat) == x) = false := by
      simp
      omega
    simp only [List.flatMap_cons, List.map_cons, List.cons_append,
      List.singleton_append, List.count_cons, h0]
    simp
    exact ih

theorem count0_flatMap_pairs (l : List LayerListItem)
    (hids : ∀ li ∈ l, li.id ≠ 0) :
    (l.flatMap (fun li => [li.id, 0])).count 0 = l.length := by
  induction l with
  | nil => simp
  | cons a l ih =>
    have ih2 := ih (fun li hli => hids li (by simp [hli]))
    have ha : (a.id == (0:Nat)) = false := by
      simp
      exact hids a (by simp)
    simp only [List.flatMap_cons, List.cons_append, List.singleton_append,
      List.count_cons, ha, List.length_cons]
    simp
    exact ih2

theorem reverse_flatMap_pairs (l : List LayerListItem) :
    (l.flatMap (fun li => [li.id, 0])).reverse =
      (l.reverse).flatMap (fun li => [(0:Nat), li.id]) := by
  induction l with
  | nil => simp
  | cons a l ih =>
    simp only [List.flatMap_cons, List.reverse_append, List.reverse_cons,
      List.flatMap_append]
    simp [ih]

theorem list_decomp_two {α : Type} (items : List α) (a o : Nat) (hao : a ≤ o)
    (ho : o < items.length) :
    ∃ xs ys zs v, items = xs ++ ys ++ v :: zs ∧ xs.length = a ∧
      ys.length = o - a := by
  have e3 : items.drop o = items.get ⟨o, ho⟩ :: items.drop (o+1) := by
    rw [List.drop_eq_getElem_cons ho]
    simp [List.get_eq_getElem]
  have e2 : items.drop a = (items.drop a).take (o - a) ++ items.drop o := by
    conv_lhs => rw [← List.take_append_drop (o - a) (items.drop a)]
    congr 1
    rw [List.drop_drop]
    congr 1
    omega
  have e1 : items = items.take a ++ items.drop a :=
    (List.take_append_drop a items).symm
  refine ⟨items.take a, (items.drop a).take (o - a), items.drop (o+1),
    items.get ⟨o, ho⟩, ?_, ?_, ?_⟩
  · calc items = items.take a ++ items.drop a := e1
      _ = items.take a ++ ((items.drop a).take (o - a) ++ items.drop o) :=
        congrArg (items.take a ++ ·) e2
      _ = items.take a ++ ((items.drop a).take (o - a) ++
            (items.get ⟨o, ho⟩ :: items.drop (o+1))) :=
        congrArg (items.take a ++ ·)
          (congrArg ((items.drop a).take (o - a) ++ ·) e3)
      _ = items.take a ++ (items.drop a).take (o - a) ++
            (items.get ⟨o, ho⟩ :: items.drop (o+1)) :=
        (List.append_assoc _ _ _).symm
  · rw [List.length_take]
    omega
  · rw [List.length_take, List.length_drop]
    omega

/-- C1 counterexample: with three layers 0x101, 0x102, 0x103 (top first)
and a move of display index 0 to display index 2, the emitted payload is
not the claimed one (every id followed by a 0, in reverse display order
with the moved layer relocated): the two QVector.move calls misalign on a
downward move and the flat reversal puts the 0 entries before the ids. -/
theorem handleMoveLayer_payload_counterexample :
    (handleMoveLayer exampleLayers3 0 2).2 ≠
      some (claimedMovePayload exampleLayers3 0 2) := by
  decide

/-- C1 (amended): for a valid move, handleMoveLayer emits exactly one
layer-order command; its payload has twice as many entries as there are
layers, contains every current layer id with its original multiplicity
(hence exactly once when the ids are distinct and nonzero) and one 0 entry
per layer; and when the adjusted new index is at most the old index (an
upward or in-place move) the payload is exactly the new display order --
the moved layer relocated to the adjusted index -- reversed to
bottom-to-top, each id preceded (not followed) by a 0 entry.  Downward
moves do not follow this shape, as the counterexample shows. -/
theorem handleMoveLayer_emits_spec (items : List LayerListItem)
    (oldIdx newIdx : Int) (hlen : 2 ≤ items.length)
    (ho1 : 0 ≤ oldIdx) (ho2 : oldIdx < (items.length : Int))
    (ha1 : 0 ≤ (if newIdx > oldIdx then newIdx - 1 else newIdx))
    (ha2 : (if newIdx > oldIdx then newIdx - 1 else newIdx) < (items.length : Int)) :
    ∃ cmd, handleMoveLayer items oldIdx newIdx = (items, some cmd) ∧
      cmd.length = 2 * items.length ∧
      (∀ x : Nat, x ≠ 0 →
        cmd.count x = (items.map (fun li => li.id)).count x) ∧
      ((∀ li ∈ items, li.id ≠ 0) → cmd.count 0 = items.length) ∧
      ((items.map (fun li => li.id)).Nodup → ∀ li ∈ items, li.id ≠ 0 →
        cmd.count li.id = 1) ∧
      ((if newIdx > oldIdx then newIdx - 1 else newIdx) ≤ oldIdx →
        cmd = ((listMove items oldIdx.toNat
          (if newIdx > oldIdx then newIdx - 1 else newIdx).toNat).reverse).flatMap
            (fun li => [(0:Nat), li.id])) := by
  simp only [handleMoveLayer]
  set A : Int := if newIdx > oldIdx then newIdx - 1 else newIdx with hA
  rw [if_neg (show ¬ ((items.length : Int) < 2) by omega),
    if_neg (show ¬ (oldIdx < 0 ∨ (items.length : Int) ≤ oldIdx ∨ A < 0 ∨
      (items.length : Int) ≤ A) by omega)]
  set o := oldIdx.toNat with ho
  set a := A.toNat with ha
  have ho' : o < items.length := by omega
  have ha' : a < items.length := by omega
  have hlenF : (items.flatMap (fun li => [li.id, 0])).length = 2 * items.length :=
    flatMap_pairs_length items
  have p1 : List.Perm
      (listMove (items.flatMap (fun li => [li.id, 0])) (2*o) (2*a))
      (items.flatMap (fun li => [li.id, 0])) :=
    listMove_perm _ _ _ (by omega) (by omega)
  have hlen1 : (listMove (items.flatMap (fun li => [li.id, 0])) (2*o) (2*a)).length
      = 2 * items.length := by
    rw [p1.length_eq, hlenF]
  have p2 : List.Perm
      (listMove (listMove (items.flatMap (fun li => [li.id, 0])) (2*o) (2*a))
        (2*o+1) (2*a+1))
      (listMove (items.flatMap (fun li => [li.id, 0])) (2*o) (2*a)) :=
    listMove_perm _ _ _ (by omega) (by omega)
  have pm : List.Perm
      (listMove (listMove (items.flatMap (fun li => [li.id, 0])) (2*o) (2*a))
        (2*o+1) (2*a+1))
      (items.flatMap (fun li => [li.id, 0])) := p2.trans p1
  refine ⟨_, rfl, ?_, ?_, ?_, ?_, ?_⟩
  · rw [List.length_reverse, pm.length_eq, hlenF]
  · intro x hx
    rw [List.count_reverse, pm.count_eq, count_flatMap_pairs items x hx]
  · intro hids
    rw [List.count_reverse, pm.count_eq, count0_flatMap_pairs items hids]
  · intro hnd li hli hid
    rw [List.count_reverse, pm.count_eq, count_flatMap_pairs items li.id hid]
    exact List.count_eq_one_of_mem hnd (List.mem_map.mpr ⟨li, hli, rfl⟩)
  · intro hle
    have hao : a ≤ o := by omega
    obtain ⟨xs, ys, zs, v, heq, hxs, hys⟩ := list_decomp_two items a o hao ho'
    have hitems2 : listMove items o a = xs ++ v :: (ys ++ zs) := by
      conv_lhs => rw [heq]
      rw [show o = xs.length + ys.length from by omega,
        show a = xs.length from hxs.symm]
      exact listMove_append_mid xs ys zs v
    have hflat : listMove (listMove (items.flatMap (fun li => [li.id, 0]))
        (2*o) (2*a)) (2*o+1) (2*a+1) =
        ((xs ++ v :: (ys ++ zs)).flatMap (fun li => [li.id, 0])) := by
      conv_lhs => rw [heq]
      rw [show 2*o = 2*(xs.length + ys.length) from by omega,
        show 2*a = 2*xs.length from by omega]
      exact flat_move2 xs ys zs v
    rw [hflat, ← hitems2, reverse_flatMap_pairs]

/-- C1 witness: moving the bottom layer 0x103 of three to the top
(display index 2 to 0): the payload is the new bottom-to-top order with
each id preceded by a 0 entry. -/
theorem handleMoveLayer_emits_spec_witness :
    (2 ≤ exampleLayers3.length ∧ (0:Int) ≤ 2 ∧
      (2:Int) < (exampleLayers3.length : Int) ∧
      (0:Int) ≤ (if (0:Int) > 2 then (0:Int) - 1 else 0) ∧
      (if (0:Int) > 2 then (0:Int) - 1 else 0) < (exampleLayers3.length : Int)) ∧
    (∃ cmd, handleMoveLayer exampleLayers3 2 0 = (exampleLayers3, some cmd) ∧
      cmd.length = 2 * exampleLayers3.length ∧
      (∀ x : Nat, x ≠ 0 →
        cmd.count x = (exampleLayers3.map (fun li => li.id)).count x) ∧
      ((∀ li ∈ exampleLayers3, li.id ≠ 0) → cmd.count 0 = exampleLayers3.length) ∧
      ((exampleLayers3.map (fun li => li.id)).Nodup →
        ∀ li ∈ exampleLayers3, li.id ≠ 0 → cmd.count li.id = 1) ∧
      ((if (0:Int) > 2 then (0:Int) - 1 else 0) ≤ 2 →
        cmd = ((listMove exampleLayers3 (2:Int).toNat
          ((if (0:Int) > 2 then (0:Int) - 1 else 0)).toNat).reverse).flatMap
            (fun li => [(0:Nat), li.id]))) :=
  ⟨⟨by decide, by decide, by decide, by decide, by decide⟩,
    handleMoveLayer_emits_spec exampleLayers3 2 0 (by decide) (by decide)
      (by decide) (by decide) (by decide)⟩

/-! ## C8: region fill -/

theorem subset_floodStep (g : CanvasGrid) (c tol : Nat) (S : Finset (Nat × Nat)) :
    S ⊆ floodStep g c tol S :=
  Finset.subset_union_left

theorem floodStep_subset_grid (g : CanvasGrid) (c tol : Nat)
    (S : Finset (Nat × Nat)) (hS : S ⊆ gridPixels g) :
    floodStep g c tol S ⊆ gridPixels g := by
  unfold floodStep
  exact Finset.union_subset hS (Finset.filter_subset _ _)

theorem iterate_subset_grid (g : CanvasGrid) (c tol : Nat)
    (S : Finset (Nat × Nat)) (hS : S ⊆ gridPixels g) :
    ∀ n, (floodStep g c tol)^[n] S ⊆ gridPixels g := by
  intro n
  induction n with
  | zero => simpa using hS
  | succ n ih =>
    rw [Function.iterate_succ_apply']
    exact floodStep_subset_grid g c tol _ ih

theorem subset_iterate (g : CanvasGrid) (c tol : Nat) (S : Finset (Nat × Nat)) :
    ∀ n, S ⊆ (floodStep g c tol)^[n] S := by
  intro n
  induction n with
  | zero => simp
  | succ n ih =>
    rw [Function.iterate_succ_apply']
    exact subset_trans ih (subset_floodStep g c tol _)

theorem iterate_mono_succ (g : CanvasGrid) (c tol : Nat) (S : Finset (Nat × Nat))
    (n : Nat) :
    (floodStep g c tol)^[n] S ⊆ (floodStep g c tol)^[n+1] S := by
  rw [Function.iterate_succ_apply']
  exact subset_floodStep g c tol _

theorem iterate_stabilize (g : CanvasGrid) (c tol : Nat) (S : Finset (Nat × Nat))
    (k : Nat) (hk : (floodStep g c tol)^[k+1] S = (floodStep g c tol)^[k] S) :
    ∀ j, (floodStep g c tol)^[k+j] S = (floodStep g c tol)^[k] S := by
  have hk2 : floodStep g c tol ((floodStep g c tol)^[k] S) =
      (floodStep g c tol)^[k] S :=
    (Function.iterate_succ_apply' (floodStep g c tol) k S).symm.trans hk
  intro j
  induction j with
  | zero => rfl
  | succ j ih =>
    have he : k + (j+1) = (k + j) + 1 := by omega
    rw [he, Function.iterate_succ_apply', ih, hk2]

theorem iterate_fixed_at_card (g : CanvasGrid) (c tol : Nat)
    (S : Finset (Nat × Nat)) (hS : S ⊆ gridPixels g) :
    floodStep g c tol ((floodStep g c tol)^[g.w * g.h] S) =
      (floodStep g c tol)^[g.w * g.h] S := by
  set N := g.w * g.h with hN
  have hcard : (gridPixels g).card = N := by
    simp [gridPixels, Finset.card_product]
  by_cases hex : ∃ k, k ≤ N ∧
      (floodStep g c tol)^[k+1] S = (floodStep g c tol)^[k] S
  · rcases hex with ⟨k, hkN, hk⟩
    have h1 := iterate_stabilize g c tol S k hk (N - k)
    rw [show k + (N - k) = N from by omega] at h1
    rw [h1]
    exact (Function.iterate_succ_apply' (floodStep g c tol) k S).symm.trans hk
  · push_neg at hex
    exfalso
    have hgrow : ∀ k, k ≤ N + 1 → k ≤ ((floodStep g c tol)^[k] S).card := by
      intro k
      induction k with
      | zero => intro; omega
      | succ k ih =>
        intro hk
        have hlt : ((floodStep g c tol)^[k] S).card <
            ((floodStep g c tol)^[k+1] S).card := by
          apply Finset.card_lt_card
          refine ⟨iterate_mono_succ g c tol S k, ?_⟩
          intro hsub
          exact hex k (by omega)
            (Finset.Subset.antisymm hsub (iterate_mono_succ g c tol S k))
        have := ih (by omega)
        omega
    have h1 := hgrow (N+1) (le_refl _)
    have h2 : ((floodStep g c tol)^[N+1] S).card ≤ (gridPixels g).card :=
      Finset.card_le_card (iterate_subset_grid g c tol S hS (N+1))
    omega

theorem floodRegion_sound (g : CanvasGrid) (x y tol : Nat) :
    ∀ p ∈ floodRegion g x y tol, inTolerance g (g.pix x y) tol p := by
  unfold floodRegion
  set c := g.pix x y
  set init : Finset (Nat × Nat) :=
    if inTolerance g c tol (x, y) then {(x, y)} else ∅ with hinit
  have hbase : ∀ p ∈ init, inTolerance g c tol p := by
    intro p hp
    rw [hinit] at hp
    split at hp
    · simp at hp
      subst hp
      assumption
    · simp at hp
  generalize g.w * g.h = n
  induction n with
  | zero => simpa using hbase
  | succ n ih =>
    rw [Function.iterate_succ_apply']
    intro p hp
    rcases Finset.mem_union.mp hp with hp2 | hp2
    · exact ih p hp2
    · exact (Finset.mem_filter.mp hp2).2.1

theorem floodRegion_reach (g : CanvasGrid) (x y tol : Nat) :
    ∀ p, p ∈ floodRegion g x y tol ↔ FloodReach g x y tol p := by
  have hinit_sub : (if inTolerance g (g.pix x y) tol (x, y) then ({(x, y)} :
      Finset (Nat × Nat)) else ∅) ⊆ gridPixels g := by
    split
    · rename_i hin
      intro p hp
      simp at hp
      subst hp
      exact hin.1
    · simp
  have hfix := iterate_fixed_at_card g (g.pix x y) tol _ hinit_sub
  intro p
  constructor
  · unfold floodRegion
    set c := g.pix x y
    set init : Finset (Nat × Nat) :=
      if inTolerance g c tol (x, y) then {(x, y)} else ∅ with hinit
    have hbase : ∀ q ∈ init, FloodReach g x y tol q := by
      intro q hq
      rw [hinit] at hq
      split at hq
      · simp at hq
        subst hq
        exact FloodReach.seed (by assumption)
      · simp at hq
    generalize g.w * g.h = n
    induction n generalizing p with
    | zero => intro hp; exact hbase p (by simpa using hp)
    | succ n ih =>
      rw [Function.iterate_succ_apply']
      intro hp
      rcases Finset.mem_union.mp hp with hp2 | hp2
      · exact ih p hp2
      · rcases Finset.mem_filter.mp hp2 with ⟨-, hint, q, hq, hadj⟩
        exact FloodReach.step q p (ih q hq) hadj hint
  · intro hr
    induction hr with
    | seed hin =>
      have hm : (x, y) ∈ (if inTolerance g (g.pix x y) tol (x, y) then ({(x, y)} :
          Finset (Nat × Nat)) else ∅) := by
        rw [if_pos hin]
        simp
      exact subset_iterate g (g.pix x y) tol _ (g.w * g.h) hm
    | step q r hq hadj hint ihq =>
      show r ∈ floodRegion g x y tol
      have hm : r ∈ floodStep g (g.pix x y) tol (floodRegion g x y tol) := by
        unfold floodStep
        apply Finset.mem_union_right
        rw [Finset.mem_filter]
        exact ⟨hint.1, hint, q, ihq, hadj⟩
      unfold floodRegion at hm ⊢
      rwa [hfix] at hm

/-- C8: the filled region admits a pixel exactly when it is connected to
the seed through pixels whose color distance to the seed color is within
the tolerance (FloodReach); every admitted pixel is on the canvas and
within tolerance of the seed color; whether the fill succeeds does not
depend on the fill color at all; a region over the size limit signals
failure rather than returning an image; and filling a uniformly colored
canvas with the color it already has yields an empty, zero-size result. -/
theorem DP_flood_fill_spec (g : CanvasGrid) (x y fillColor tol sizeLimit : Nat) :
    (∀ p, p ∈ floodRegion g x y tol ↔ FloodReach g x y tol p) ∧
    (∀ p ∈ floodRegion g x y tol, p.1 < g.w ∧ p.2 < g.h ∧
      colorDist (g.pix p.1 p.2) (g.pix x y) ≤ tol) ∧
    (∀ fc2, (DP_flood_fill g x y fillColor tol sizeLimit).isSome =
      (DP_flood_fill g x y fc2 tol sizeLimit).isSome) ∧
    (sizeLimit < (floodRegion g x y tol).card →
      DP_flood_fill g x y fillColor tol sizeLimit = none) ∧
    ((∀ i j, i < g.w → j < g.h → g.pix i j = fillColor) →
      (floodRegion g x y tol).card ≤ sizeLimit →
      DP_flood_fill g x y fillColor tol sizeLimit =
        some { x := 0, y := 0, w := 0, h := 0 }) := by
  refine ⟨floodRegion_reach g x y tol, ?_, ?_, ?_, ?_⟩
  · intro p hp
    rcases floodRegion_sound g x y tol p hp with ⟨hmem, hdist⟩
    simp only [gridPixels, Finset.mem_product, Finset.mem_range] at hmem
    exact ⟨hmem.1, hmem.2, hdist⟩
  · intro fc2
    unfold DP_flood_fill
    by_cases hlim : sizeLimit < (floodRegion g x y tol).card
    · rw [if_pos hlim, if_pos hlim]
    · rw [if_neg hlim, if_neg hlim]
      simp only []
      split <;> split <;> rfl
  · intro hlim
    unfold DP_flood_fill
    rw [if_pos hlim]
  · intro huni hlim
    unfold DP_flood_fill
    rw [if_neg (by omega)]
    have hemp : (floodRegion g x y tol).filter
        (fun p => g.pix p.1 p.2 ≠ fillColor) = ∅ := by
      rw [Finset.filter_eq_empty_iff]
      intro p hp
      rcases floodRegion_sound g x y tol p hp with ⟨hmem, -⟩
      simp only [gridPixels, Finset.mem_product, Finset.mem_range] at hmem
      simp [huni p.1 p.2 hmem.1 hmem.2]
    rw [dif_neg (by rw [hemp]; simp [Finset.not_nonempty_empty])]

/-- C8 witness: on the uniform 2 by 2 canvas, filling at the seed with the
already-present color 5, tolerance 0 and limit 4 gives the zero-size
image, while a limit of 3 makes the call fail for any fill color. -/
theorem DP_flood_fill_spec_witness :
    ((∀ i j, i < exampleGrid.w → j < exampleGrid.h → exampleGrid.pix i j = 5) ∧
      (floodRegion exampleGrid 0 0 0).card ≤ 4 ∧
      DP_flood_fill exampleGrid 0 0 5 0 4 =
        some { x := 0, y := 0, w := 0, h := 0 }) ∧
    (3 < (floodRegion exampleGrid 0 0 0).card ∧
      DP_flood_fill exampleGrid 0 0 5 0 3 = none) :=
  ⟨⟨fun i j _ _ => rfl, by decide,
    (DP_flood_fill_spec exampleGrid 0 0 5 0 4).2.2.2.2 (fun i j _ _ => rfl)
      (by decide)⟩,
   ⟨by decide, (DP_flood_fill_spec exampleGrid 0 0 5 0 3).2.2.2.1 (by decide)⟩⟩
